import Mathlib

/-!
Verification development for the `uri-template-matcher` library (RFC 6570
URI template parsing, expansion and inverse matching).

The repository ships its test suites, README and design documents, but the
implementation modules (`src/parser.js`, `src/matcher.js`, `src/expander.js`)
are not part of the source tree given here.  The definitions below are
therefore modelled from the specification (`spec.md`), sections 3, 4.1, 4.2,
4.3, 6 and 7, and cross-checked against the expected values recorded in the
repository's test files.  Strings are modelled as Lean `String`/`List Char`;
percent-encoding works at the level of Unicode code points (code points below
256 are escaped as a single `%XX` pair, larger code points pass through
unchanged); this is the one simplification relative to RFC 3986's byte-level
UTF-8 encoding, and none of the properties below depend on it.
-/

namespace UriTemplate

/-- Modelled from the spec (section 3, Operator): one of the eight RFC 6570
operator symbols; the absent operator is represented as `Option.none` at use
sites, matching the parser's `operator: undefined`. -/
inductive Op
  | plus | hash | dot | slash | semicolon | question | amp
  deriving DecidableEq, Repr

/-- Modelled from the spec (section 3, Operator table): the literal inserted
before the first rendered value, if any. -/
def op_prefix_char : Option Op → Option Char
  | none => none
  | some .plus => none
  | some .hash => some '#'
  | some .dot => some '.'
  | some .slash => some '/'
  | some .semicolon => some ';'
  | some .question => some '?'
  | some .amp => some '&'

/-- Modelled from the spec (section 3, Operator table): the join separator. -/
def op_sep : Option Op → Char
  | none => ','
  | some .plus => ','
  | some .hash => ','
  | some .dot => '.'
  | some .slash => '/'
  | some .semicolon => ';'
  | some .question => '&'
  | some .amp => '&'

/-- Modelled from the spec (section 3, Operator table): whether values render
as name=value pairs. -/
def op_named : Option Op → Bool
  | some .semicolon => true
  | some .question => true
  | some .amp => true
  | _ => false

/-- Modelled from the spec (section 3, Operator table): whether reserved URI
characters pass through unescaped. -/
def op_allow_reserved : Option Op → Bool
  | some .plus => true
  | some .hash => true
  | _ => false

/-- Modelled from the spec (section 4.1): the leading operator characters. -/
def op_of_char (c : Char) : Option Op :=
  if c = '+' then some .plus
  else if c = '#' then some .hash
  else if c = '.' then some .dot
  else if c = '/' then some .slash
  else if c = ';' then some .semicolon
  else if c = '?' then some .question
  else if c = '&' then some .amp
  else none

/-- Modelled from the spec (section 3, VarSpec): one variable reference. -/
structure VarSpec where
  name : String
  prefix_length : Option Nat
  explode : Bool
  deriving DecidableEq, Repr

/-- Modelled from the spec (section 3, Part): tagged union of literal text
and operator expressions. -/
inductive Part
  | literal (value : String)
  | expression (operator : Option Op) (expressions : List VarSpec)
  deriving DecidableEq, Repr

/-- Modelled from the spec (section 3, ParsedTemplate): the original template
string together with its ordered parts. -/
structure ParsedTemplate where
  template : String
  parts : List Part
  deriving DecidableEq, Repr

/-- Modelled from the spec (section 7): the four parse-time error kinds. -/
inductive ParseError
  | UnclosedExpression | EmptyExpression | EmptyVariableName | InvalidPrefixLength
  deriving DecidableEq, Repr

/-- Splits a character list on a separator; `n` separators yield `n + 1`
pieces. -/
def split_on (sep : Char) : List Char → List (List Char)
  | [] => [[]]
  | c :: cs =>
      let r := split_on sep cs
      if c = sep then [] :: r
      else
        match r with
        | [] => [[c]]
        | t :: ts => (c :: t) :: ts

/-- Splits a character list at the first occurrence of a separator, or
returns `none` when the separator does not occur. -/
def split_first (sep : Char) : List Char → Option (List Char × List Char)
  | [] => none
  | c :: cs =>
      if c = sep then some ([], cs)
      else (split_first sep cs).map (fun p => (c :: p.1, p.2))

/-- Decimal value of a digit list (used for the prefix-length modifier). -/
def nat_of_digits (cs : List Char) : Nat :=
  cs.foldl (fun acc c => 10 * acc + (c.toNat - 48)) 0

/-- Modelled from the spec (section 4.1, expression-body parsing): one token
is `name`, `name:N` with decimal `N`, or `name*`; an empty name before
`:`/`*` fails with `EmptyVariableName`, a non-digit prefix suffix fails with
`InvalidPrefixLength`. -/
def parse_varspec (tok : List Char) : Except ParseError VarSpec :=
  match split_first ':' tok with
  | some (nm, digits) =>
      if nm = [] then .error .EmptyVariableName
      else if digits ≠ [] ∧ digits.all Char.isDigit then
        .ok ⟨String.mk nm, some (nat_of_digits digits), false⟩
      else .error .InvalidPrefixLength
  | none =>
      if tok = [] then .error .EmptyVariableName
      else if tok.getLast? = some '*' then
        if tok.dropLast = [] then .error .EmptyVariableName
        else .ok ⟨String.mk tok.dropLast, none, true⟩
      else .ok ⟨String.mk tok, none, false⟩

/-- Modelled from the spec (section 4.1): the accumulated expression text is
split on commas into one-or-more variable tokens after the optional leading
operator character; an entirely empty block fails with `EmptyExpression`. -/
def parse_expr_body (body : List Char) : Except ParseError Part :=
  match body with
  | [] => .error .EmptyExpression
  | c :: rest =>
      let p : Option Op × List Char :=
        match op_of_char c with
        | some o => (some o, rest)
        | none => (none, c :: rest)
      do
        let vs ← (split_on ',' p.2).mapM parse_varspec
        .ok (.expression p.1 vs)

/-- Flush the (reversed) literal buffer as a `Part.literal` if non-empty. -/
def flush_buf (parts : List Part) (buf : List Char) : List Part :=
  if buf = [] then parts else .literal (String.mk buf.reverse) :: parts

/-- Finish the scan: flush the buffer and reverse the accumulated parts; an
empty template yields a single empty literal (spec section 4.1, edge cases). -/
def finalize (parts : List Part) (buf : List Char) : List Part :=
  let ps := flush_buf parts buf
  if ps = [] then [.literal ""] else ps.reverse

/-- Modelled from the spec (section 4.1): single left-to-right
character-scanning state machine.  `buf` is the reversed literal buffer;
`ebuf` is `some` (reversed) expression text while inside a brace block.
Reaching end-of-input inside a block fails with `UnclosedExpression`. -/
def scan_parts (parts : List Part) (buf : List Char) (ebuf : Option (List Char)) :
    List Char → Except ParseError (List Part)
  | [] =>
      match ebuf with
      | some _ => .error .UnclosedExpression
      | none => .ok (finalize parts buf)
  | c :: cs =>
      match ebuf with
      | some eb =>
          if c = '\x7d' then
            match parse_expr_body eb.reverse with
            | .ok e => scan_parts (e :: parts) [] none cs
            | .error err => .error err
          else scan_parts parts buf (some (c :: eb)) cs
      | none =>
          if c = '\x7b' then scan_parts (flush_buf parts buf) [] (some []) cs
          else scan_parts parts (c :: buf) none cs

/-- Modelled from the spec (section 4.1, contract): `parse(template) ->
ParsedTemplate`, failing with a specific `SyntaxError` kind on malformed
input.  Stands in for the `parse_template` export of the absent
`src/parser.js`. -/
def parse_template (s : String) : Except ParseError ParsedTemplate :=
  (scan_parts [] [] none s.data).map (fun ps => ⟨s, ps⟩)

end UriTemplate

instance {ε α : Type} [DecidableEq ε] [DecidableEq α] : DecidableEq (Except ε α)
  | .ok a, .ok b =>
      if h : a = b then .isTrue (by rw [h])
      else .isFalse (by intro hh; injection hh; contradiction)
  | .error a, .error b =>
      if h : a = b then .isTrue (by rw [h])
      else .isFalse (by intro hh; injection hh; contradiction)
  | .ok _, .error _ => .isFalse (by intro h; cases h)
  | .error _, .ok _ => .isFalse (by intro h; cases h)



namespace UriTemplate

/-- RFC 3986 unreserved characters: ALPHA, DIGIT, `-`, `.`, `_`, `~`. -/
def is_unreserved (c : Char) : Bool :=
  c.isAlpha || c.isDigit || c = '-' || c = '.' || c = '_' || c = '~'

/-- RFC 3986 reserved characters (spec section 3, Operator). -/
def is_reserved (c : Char) : Bool :=
  [':', '/', '?', '#', '[', ']', '@', '!', '$', '&', '\'',
   '(', ')', '*', '+', ',', ';', '='].contains c

/-- Hexadecimal digit character for a value below 16 (uppercase). -/
def hex_digit (n : Nat) : Char :=
  if n < 10 then Char.ofNat (48 + n) else Char.ofNat (55 + n)

/-- Value of a hexadecimal digit character, accepting both cases. -/
def hex_val (c : Char) : Option Nat :=
  if '0' ≤ c ∧ c ≤ '9' then some (c.toNat - 48)
  else if 'A' ≤ c ∧ c ≤ 'F' then some (c.toNat - 55)
  else if 'a' ≤ c ∧ c ≤ 'f' then some (c.toNat - 87)
  else none

/-- Modelled from the spec (sections 4.2 and 6, value encoding):
percent-encoding of one character.  Unreserved characters, and reserved
characters when the operator allows reserved passthrough, are copied;
other code points below 256 become a `%XX` escape; larger code points pass
through unchanged (code-point-level simplification of UTF-8 byte encoding). -/
def encode_char (allow : Bool) (c : Char) : List Char :=
  if is_unreserved c || (allow && is_reserved c) then [c]
  else if c.toNat < 256 then ['%', hex_digit (c.toNat / 16), hex_digit (c.toNat % 16)]
  else [c]

/-- Percent-encoding of a character list. -/
def encode_chars (allow : Bool) : List Char → List Char
  | [] => []
  | c :: cs => encode_char allow c ++ encode_chars allow cs

/-- Modelled from the spec (section 4.3, rule 7): percent-decoding; a `%`
followed by two hex digits becomes the corresponding code point, anything
else is copied through. -/
def decode_chars : List Char → List Char
  | [] => []
  | '%' :: a :: b :: rest =>
      match hex_val a, hex_val b with
      | some x, some y => Char.ofNat (16 * x + y) :: decode_chars rest
      | _, _ => '%' :: decode_chars (a :: b :: rest)
  | c :: rest => c :: decode_chars rest

/-- Modelled from the spec (section 4.3): the span a variable-bearing region
may consume is limited to the operator's allowed-character set ("when an
operator's allowed-character set overlaps the next literal's leading
characters"): unreserved characters, percent escapes, non-ASCII code points,
the operator's separator, `=` under a named operator, and the reserved set
when the operator allows reserved passthrough. -/
def allowed_in_span (op : Option Op) (c : Char) : Bool :=
  is_unreserved c || c = '%' || decide (128 ≤ c.toNat) ||
  (op_allow_reserved op && is_reserved c) ||
  c = op_sep op || (op_named op && c = '=')

/-- Consume an exact literal character sequence from the front of the URI,
returning the remainder, or `none` when the literal is not present
(spec section 4.3, rule 2). -/
def consume_lit : List Char → List Char → Option (List Char)
  | [], cs => some cs
  | _ :: _, [] => none
  | p :: ps, c :: cs => if p = c then consume_lit ps cs else none

/-- Largest index `i ≤ bound` at which the literal occurs in the list
(greedy, longest-left-biased span selection of spec section 4.3). -/
def last_fit (lit cs : List Char) : Nat → Option Nat
  | 0 => if (consume_lit lit cs).isSome then some 0 else none
  | i + 1 =>
      if (consume_lit lit (cs.drop (i + 1))).isSome then some (i + 1)
      else last_fit lit cs i

/-- Modelled from the spec (section 3, MatchResult): a recovered value is a
decoded string or an ordered list of decoded strings. -/
inductive PValue
  | s (v : String)
  | l (vs : List String)
  deriving DecidableEq, Repr

/-- An ordered mapping from variable names to recovered values. -/
abbrev Params := List (String × PValue)

/-- Truncation by the prefix-length modifier (character count). -/
def trunc (pl : Option Nat) (cs : List Char) : List Char :=
  match pl with
  | some n => cs.take n
  | none => cs

/-- Under a named operator a segment reads `name=value` (or bare `name` for
an empty value); strip the name, returning the raw value text
(spec section 4.3, rule 4). -/
def strip_named (nm : List Char) (seg : List Char) : Option (List Char) :=
  match consume_lit (nm ++ ['=']) seg with
  | some rest => some rest
  | none => if seg = nm then some [] else none

/-- Modelled from the spec (section 4.3, rules 4-7): recover one variable's
value from its consumed segment.  An exploded variable splits the segment on
the operator's separator into decoded pieces (for named operators the raw
`key=value` pieces are kept); otherwise the (name-stripped, under a named
operator) segment is decoded and truncated to the prefix length. -/
def bind_one (op : Option Op) (vs : VarSpec) (seg : List Char) :
    Option (String × PValue) :=
  if vs.explode then
    some (vs.name, .l ((split_on (op_sep op) seg).map (fun p => String.mk (decode_chars p))))
  else
    match (if op_named op then strip_named vs.name.data seg else some seg) with
    | some raw => some (vs.name, .s (String.mk (trunc vs.prefix_length (decode_chars raw))))
    | none => none

/-- Modelled from the spec (section 4.3, rule 4): split an expression's
consumed span into per-variable segments on the operator's separator, in
declared order, the last variable consuming any remainder (greedy-last). -/
def process_expr (op : Option Op) : List VarSpec → List Char → Option Params
  | [], span => if span.isEmpty then some [] else none
  | [vs], span => (bind_one op vs span).map (fun b => [b])
  | vs :: vs' :: rest, span =>
      match split_first (op_sep op) span with
      | some (seg, remainder) => do
          let b ← bind_one op vs seg
          let bs ← process_expr op (vs' :: rest) remainder
          pure (b :: bs)
      | none => none

/-- Modelled from the spec (section 4.3, rule 3 and section 9): the bounded
greedy-then-backtrack search at an ambiguous adjacent-expression boundary:
candidate consumption lengths are tried longest-first and the first
candidate that lets the remainder complete wins. -/
def try_splits (f : Nat → Option Params) : Nat → Option Params
  | 0 => f 0
  | k + 1 => f (k + 1) <|> try_splits f k

/-- Modelled from the spec (section 4.3): left-to-right processing of the
parts with a cursor into the unconsumed URI suffix.  A literal must be
present verbatim; an expression first consumes the operator's leading
literal when present (its absence skips the expression); the span is
bounded by the operator's allowed-character set, anchored greedily at the
last occurrence of a following literal, and searched longest-first with
backtracking when the following part is another expression (rule 3); the
whole match fails unless the URI is consumed exactly (rule 8 and the
all-or-nothing failure policy). -/
def match_parts : List Part → List Char → Option Params
  | [], cs => if cs.isEmpty then some [] else none
  | .literal l :: rest, cs =>
      match consume_lit l.data cs with
      | some cs' => match_parts rest cs'
      | none => none
  | .expression op vars :: rest, cs =>
      let step : List Char → Option Params := fun cs' =>
        let limit := (cs'.takeWhile (allowed_in_span op)).length
        match rest with
        | [] =>
            match process_expr op vars (cs'.take limit) with
            | some bs => if (cs'.drop limit).isEmpty then some bs else none
            | none => none
        | .literal l :: _ =>
            match last_fit l.data cs' limit with
            | some i => do
                let bs ← process_expr op vars (cs'.take i)
                let ps ← match_parts rest (cs'.drop i)
                pure (bs ++ ps)
            | none => none
        | .expression _ _ :: _ =>
            try_splits (fun k => do
              let bs ← process_expr op vars (cs'.take k)
              let ps ← match_parts rest (cs'.drop k)
              pure (bs ++ ps)) limit
      match op_prefix_char op with
      | some p =>
          match cs with
          | c :: cs' => if c = p then step cs' else match_parts rest cs
          | [] => match_parts rest cs
      | none => step cs

/-- Modelled from the spec (section 4.3, contract): `match(parsed, uri) ->
MatchResult | null`; stands in for the `match_uri` export of the absent
`src/parser.js`.  Absence of a match is the `none` value, never an error. -/
def match_uri (uri : String) (parsed : ParsedTemplate) : Option Params :=
  match_parts parsed.parts uri.data

/-- Parse a template and match a URI against it in one step; `none` means
the template failed to parse, `some none` a well-formed template that does
not match. -/
def try_match (t uri : String) : Option (Option Params) :=
  (parse_template t).toOption.map (match_uri uri)

/-- Modelled from the spec (section 3, Binding): an expansion-input value is
a scalar string, an ordered list of strings, or an associative mapping. -/
inductive Value
  | s (v : String)
  | l (vs : List String)
  | assoc (kvs : List (String × String))
  deriving DecidableEq, Repr

/-- A binding of variable names to values; a name not in the list is an
absent variable. -/
abbrev Binding := List (String × Value)

/-- Look a variable name up in a binding. -/
def lookup_val (nm : String) (b : Binding) : Option Value :=
  (b.find? (fun p => p.1 = nm)).map (fun p => p.2)

/-- Join rendered pieces with the operator's separator character. -/
def join_sep (sep : Char) : List (List Char) → List Char
  | [] => []
  | [x] => x
  | x :: y :: rest => x ++ sep :: join_sep sep (y :: rest)

/-- Render one scalar value: the `name=` form under a named operator, the
prefix-length truncation (by character count, before encoding), and
percent-encoding respecting reserved passthrough (spec section 4.2). -/
def render_scalar (op : Option Op) (vs : VarSpec) (v : List Char) : List Char :=
  (if op_named op then vs.name.data ++ ['='] else []) ++
    encode_chars (op_allow_reserved op) (trunc vs.prefix_length v)

/-- Modelled from the spec (section 4.2): render one variable's value, or
`none` when the variable is absent, empty, or its value shape is
incompatible with its modifier (a prefix length applied to a list or
associative value renders nothing rather than aborting the template). -/
def render_varspec (op : Option Op) (b : Binding) (vs : VarSpec) : Option (List Char) :=
  match lookup_val vs.name b with
  | none => none
  | some (.s v) => if v = "" then none else some (render_scalar op vs v.data)
  | some (.l xs) =>
      if vs.prefix_length.isSome then none
      else if xs = [] then none
      else if vs.explode then
        some (join_sep (op_sep op) (xs.map (fun x =>
          (if op_named op then vs.name.data ++ ['='] else []) ++
            encode_chars (op_allow_reserved op) x.data)))
      else
        some ((if op_named op then vs.name.data ++ ['='] else []) ++
          join_sep ',' (xs.map (fun x => encode_chars (op_allow_reserved op) x.data)))
  | some (.assoc kvs) =>
      if vs.prefix_length.isSome then none
      else if kvs = [] then none
      else if vs.explode then
        some (join_sep (op_sep op) (kvs.map (fun kv =>
          encode_chars (op_allow_reserved op) kv.1.data ++ '=' ::
            encode_chars (op_allow_reserved op) kv.2.data)))
      else
        some ((if op_named op then vs.name.data ++ ['='] else []) ++
          join_sep ',' (kvs.map (fun kv =>
            encode_chars (op_allow_reserved op) kv.1.data ++ ',' ::
              encode_chars (op_allow_reserved op) kv.2.data)))

/-- Modelled from the spec (section 4.2): render one expression: join the
rendered variable outputs with the separator and emit the operator's
leading literal once when at least one variable rendered output. -/
def render_expression (op : Option Op) (vars : List VarSpec) (b : Binding) : List Char :=
  let rendered := vars.filterMap (render_varspec op b)
  if rendered.isEmpty then []
  else
    (match op_prefix_char op with
     | some p => [p]
     | none => []) ++ join_sep (op_sep op) rendered

/-- Expansion of a part sequence. -/
def expand_parts (b : Binding) : List Part → List Char
  | [] => []
  | .literal l :: rest => l.data ++ expand_parts b rest
  | .expression op vars :: rest => render_expression op vars b ++ expand_parts b rest

/-- Modelled from the spec (section 4.2, contract): `expand(parsed, binding)
-> string`, deterministic and best-effort per variable; stands in for the
`expand` method of the absent `src/expander.js`. -/
def expand (parsed : ParsedTemplate) (b : Binding) : String :=
  String.mk (expand_parts b parsed.parts)

/-- Modelled from the repository README and test suite: a successful
registry match carries the matched template's original string together with
the recovered params (the spec's section 3 MatchResult lists only the
params mapping). -/
structure MatchResult where
  template : String
  params : Params
  deriving DecidableEq, Repr

/-- Modelled from the spec (sections 1 and 6, registry surface): the
registry linearly tries the stored parsed templates against the URI in
insertion order and returns the first successful match, or `none`; stands
in for `UriTemplateMatcher.match` of the absent `src/matcher.js`. -/
def matcher_match : List ParsedTemplate → String → Option MatchResult
  | [], _ => none
  | t :: rest, uri =>
      match match_uri uri t with
      | some p => some ⟨t.template, p⟩
      | none => matcher_match rest uri

/-- Modelled from the spec (section 6): `add` parses and stores, propagating
parser errors; `add_all` registers a list of template strings in order,
stands in for repeated `UriTemplateMatcher.add` calls of the absent
`src/matcher.js`. -/
def add_all : List String → Except ParseError (List ParsedTemplate)
  | [] => .ok []
  | s :: ss => do
      let t ← parse_template s
      let ts ← add_all ss
      pure (t :: ts)

/-- The parts of a (possibly empty) literal section of a template. -/
def lit_parts (s : String) : List Part :=
  if s = "" then [] else [.literal s]

/-- A parsed template of the shape literal-expression-literal with a single
variable: the "single expression not adjacent to another expression"
templates of the spec's expansion/match duality property (section 8). -/
def single_var_template (l0 : String) (op : Option Op) (vs : VarSpec) (l1 : String) :
    ParsedTemplate :=
  ⟨"", lit_parts l0 ++ .expression op [vs] :: lit_parts l1⟩

/-- The `name=` text emitted before a value under a named operator. -/
def named_pre (op : Option Op) (nm : String) : List Char :=
  if op_named op then nm.data ++ ['='] else []

/-- The operator's leading literal as a character list. -/
def opfx (op : Option Op) : List Char :=
  match op_prefix_char op with
  | some p => [p]
  | none => []

/-- A concrete parsed template for a user resource, used by witnesses. -/
def tmpl_users : ParsedTemplate :=
  ⟨"/api/users/\x7bid\x7d", [.literal "/api/users/", .expression none [⟨"id", none, false⟩]]⟩

/-- A concrete parsed template for a post resource, used by witnesses. -/
def tmpl_posts : ParsedTemplate :=
  ⟨"/api/posts/\x7bid\x7d", [.literal "/api/posts/", .expression none [⟨"id", none, false⟩]]⟩

end UriTemplate

section ParserExamples
open UriTemplate

example : parse_template "api/health" =
    .ok ⟨"api/health", [.literal "api/health"]⟩ := by decide

example : parse_template "" = .ok ⟨"", [.literal ""]⟩ := by decide

example : parse_template "api/\x7bname:3\x7d" =
    .ok ⟨"api/\x7bname:3\x7d",
      [.literal "api/", .expression none [⟨"name", some 3, false⟩]]⟩ := by decide

example : parse_template "api/\x7b+path\x7d" =
    .ok ⟨"api/\x7b+path\x7d",
      [.literal "api/", .expression (some .plus) [⟨"path", none, false⟩]]⟩ := by decide

example : parse_template "api/\x7bx,y,z\x7d" =
    .ok ⟨"api/\x7bx,y,z\x7d",
      [.literal "api/",
       .expression none [⟨"x", none, false⟩, ⟨"y", none, false⟩, ⟨"z", none, false⟩]]⟩ := by
  decide

example : parse_template "api/\x7blist*\x7d" =
    .ok ⟨"api/\x7blist*\x7d",
      [.literal "api/", .expression none [⟨"list", none, true⟩]]⟩ := by decide

example : parse_template "api/\x7bunclosed" = .error .UnclosedExpression := by decide

example : parse_template "api/\x7b\x7d" = .error .EmptyExpression := by decide

example : parse_template "api/\x7b:3\x7d" = .error .EmptyVariableName := by decide

example : parse_template "api/\x7bname:abc\x7d" = .error .InvalidPrefixLength := by decide

end ParserExamples


namespace UriTemplate

/-- C2: `parse_template` fails on each malformed input with the specific
error kind for that malformation, never a generic error and never silent
acceptance: an unclosed brace block fails with `UnclosedExpression`, the
empty block with `EmptyExpression`, a missing name before a prefix modifier
with `EmptyVariableName`, and a non-numeric prefix modifier with
`InvalidPrefixLength`. -/
theorem claim_c2_parse_errors :
    parse_template "\x7bunclosed" = .error .UnclosedExpression ∧
    parse_template "\x7b\x7d" = .error .EmptyExpression ∧
    parse_template "\x7b:3\x7d" = .error .EmptyVariableName ∧
    parse_template "\x7bname:abc\x7d" = .error .InvalidPrefixLength :=
  ⟨by decide, by decide, by decide, by decide⟩

/-- C3: matching is all-or-nothing against the full URI length: once the
parts are exhausted any unconsumed trailing characters make the whole match
fail (first conjunct, over every non-empty remainder), and in particular
the template for a user id matches neither the URI with a trailing extra
segment nor the URI with the segment missing. -/
theorem claim_c3_all_or_nothing :
    (∀ (c : Char) (cs : List Char), match_parts [] (c :: cs) = none) ∧
    try_match "/api/users/\x7bid\x7d" "/api/users/123/extra" = some none ∧
    try_match "/api/users/\x7bid\x7d" "/api/users" = some none :=
  ⟨fun _ _ => rfl, by decide, by decide⟩

/-- C6: matching a variable carrying a prefix modifier truncates the
recovered value to the declared length: the three-character prefix template
against a seven-character value consumes the whole value (no length
re-validation) and stores its first three characters. -/
theorem claim_c6_prefix_truncation :
    try_match "\x7bname:3\x7d" "toolong" = some (some [("name", PValue.s "too")]) := by
  decide

/-- C7: matching an exploded variable splits the consumed span on the
operator's separator into an ordered list of decoded segments, and for a
named query operator the result is the list of raw key=value segments, not
a nested mapping. -/
theorem claim_c7_explode :
    try_match "/tags\x7b.tags*\x7d" "/tags.red.green.blue" =
      some (some [("tags", PValue.l ["red", "green", "blue"])]) ∧
    try_match "/search\x7b?filters*\x7d" "/search?color=red&size=large" =
      some (some [("filters", PValue.l ["color=red", "size=large"])]) :=
  ⟨by decide, by decide⟩

/-- C9: matching a template with two adjacent expressions and no literal
anchor between them terminates (`match_parts` is a total function whose
backtracking is the bounded longest-first search `try_splits`, one choice
point per adjacent-expression boundary) and returns some valid split of the
URI: the two recovered parts concatenate back to the input. -/
theorem claim_c9_adjacent_terminates :
    ∃ a b : String,
      try_match "\x7bversion\x7d\x7bformat\x7d" "v1json" =
        some (some [("version", PValue.s a), ("format", PValue.s b)]) ∧
      a ++ b = "v1json" :=
  ⟨"v1json", "", by decide, by decide⟩

end UriTemplate

namespace UriTemplate



/-- C1: the registry tries the stored templates in insertion order and
returns the result of the first template that matches (first conjunct: the
templates before the matching one all fail, and the result carries that
template's string and params, whatever is stored after it); if no stored
template matches, the result is null (second conjunct). -/
theorem claim_c1_first_match_wins :
    (∀ (uri : String) (pre : List ParsedTemplate) (t : ParsedTemplate)
        (post : List ParsedTemplate) (p : Params),
        (∀ t' ∈ pre, match_uri uri t' = none) → match_uri uri t = some p →
        matcher_match (pre ++ t :: post) uri = some ⟨t.template, p⟩) ∧
    (∀ (uri : String) (ts : List ParsedTemplate),
        (∀ t ∈ ts, match_uri uri t = none) → matcher_match ts uri = none) := by
  constructor
  · intro uri pre t post p hpre ht
    induction pre with
    | nil => simp [matcher_match, ht]
    | cons t' pre ih =>
        have h' : match_uri uri t' = none := hpre t' (by simp)
        simp only [List.cons_append, matcher_match, h']
        exact ih (fun x hx => hpre x (by simp [hx]))
  · intro uri ts hts
    induction ts with
    | nil => rfl
    | cons t ts ih =>
        have h' : match_uri uri t = none := hts t (by simp)
        simp only [matcher_match, h']
        exact ih (fun x hx => hts x (by simp [hx]))

/-- Witness for C1 at a concrete registry: the first stored template fails
on the URI, the second matches, and the registry returns the second's
result. -/
theorem claim_c1_first_match_wins_witness :
    matcher_match [tmpl_posts, tmpl_users] "/api/users/7" =
      some ⟨"/api/users/\x7bid\x7d", [("id", PValue.s "7")]⟩ :=
  claim_c1_first_match_wins.1 "/api/users/7" [tmpl_posts] tmpl_users []
    [("id", PValue.s "7")] (by decide) (by decide)

/-- Every parsed template remembers the exact string it was parsed from. -/
theorem parse_template_original (s : String) (t : ParsedTemplate)
    (h : parse_template s = .ok t) : t.template = s := by
  unfold parse_template at h
  cases hs : scan_parts [] [] none s.data with
  | ok ps => rw [hs] at h; cases h; rfl
  | error e => rw [hs] at h; cases h

/-- Every template stored by `add_all` comes from one of the added strings. -/
theorem add_all_mem (ss : List String) (ts : List ParsedTemplate)
    (h : add_all ss = .ok ts) : ∀ t ∈ ts, ∃ s ∈ ss, parse_template s = .ok t := by
  induction ss generalizing ts with
  | nil =>
      cases h
      intro t ht
      cases ht
  | cons s ss ih =>
      unfold add_all at h
      cases hp : parse_template s with
      | error e => rw [hp] at h; cases h
      | ok t0 =>
          rw [hp] at h
          cases ha : add_all ss with
          | error e => rw [ha] at h; cases h
          | ok ts0 =>
              rw [ha] at h
              cases h
              intro t ht
              rcases List.mem_cons.mp ht with h1 | h2
              · exact ⟨s, by simp, by rw [h1]; exact hp⟩
              · rcases ih ts0 ha t h2 with ⟨s', hs', hps'⟩
                exact ⟨s', by simp [hs'], hps'⟩

/-- A successful registry match comes from some stored template, whose
original string provides the result's template field. -/
theorem matcher_match_some (ts : List ParsedTemplate) (uri : String)
    (res : MatchResult) (h : matcher_match ts uri = some res) :
    ∃ t ∈ ts, res.template = t.template ∧ match_uri uri t = some res.params := by
  induction ts with
  | nil => cases h
  | cons t ts ih =>
      unfold matcher_match at h
      cases hm : match_uri uri t with
      | some p =>
          rw [hm] at h
          cases h
          exact ⟨t, by simp, rfl, hm⟩
      | none =>
          rw [hm] at h
          rcases ih h with ⟨t', ht', he, hp⟩
          exact ⟨t', by simp [ht'], he, hp⟩

/-- C10: every successful result of the registry's match carries, in
addition to params, a template field whose value is character-for-character
the original template string passed to add for the template that matched. -/
theorem claim_c10_result_template_field :
    ∀ (ss : List String) (ts : List ParsedTemplate) (uri : String) (res : MatchResult),
      add_all ss = .ok ts → matcher_match ts uri = some res →
      ∃ t ∈ ts, res.template = t.template ∧ res.template ∈ ss ∧
        match_uri uri t = some res.params := by
  intro ss ts uri res hadd hmatch
  rcases matcher_match_some ts uri res hmatch with ⟨t, hmem, htempl, hparams⟩
  rcases add_all_mem ss ts hadd t hmem with ⟨s, hs, hps⟩
  have : t.template = s := parse_template_original s t hps
  exact ⟨t, hmem, htempl, by rw [htempl, this]; exact hs, hparams⟩

/-- Witness for C10 at a concrete registry: adding one template string and
matching a URI yields a result whose template field is that exact string. -/
theorem claim_c10_result_template_field_witness :
    ∃ t ∈ [tmpl_users], (MatchResult.mk "/api/users/\x7bid\x7d" [("id", PValue.s "9")]).template
        = t.template ∧
      (MatchResult.mk "/api/users/\x7bid\x7d" [("id", PValue.s "9")]).template
        ∈ ["/api/users/\x7bid\x7d"] ∧
      match_uri "/api/users/9" t
        = some (MatchResult.mk "/api/users/\x7bid\x7d" [("id", PValue.s "9")]).params :=
  claim_c10_result_template_field ["/api/users/\x7bid\x7d"] [tmpl_users] "/api/users/9"
    ⟨"/api/users/\x7bid\x7d", [("id", PValue.s "9")]⟩ (by decide) (by decide)

end UriTemplate

namespace UriTemplate

/-- Scanning brace-free input accumulates it all into the literal buffer. -/
theorem scan_parts_no_brace (cs : List Char) :
    ∀ (parts : List Part) (buf : List Char), (∀ c ∈ cs, c ≠ '\x7b') →
      scan_parts parts buf none cs = .ok (finalize parts (cs.reverse ++ buf)) := by
  induction cs with
  | nil => intro parts buf _; simp [scan_parts]
  | cons c cs ih =>
      intro parts buf h
      have hc : c ≠ '\x7b' := h c (by simp)
      simp only [scan_parts, if_neg hc]
      rw [ih parts (c :: buf) (fun x hx => h x (by simp [hx]))]
      simp

/-- Parsing a template that contains no expressions yields a single literal
part spanning the whole template (spec section 4.1, edge cases; this also
covers the empty template, which parses to a single empty literal). -/
theorem parse_template_no_brace (t : String) (h : ∀ c ∈ t.data, c ≠ '\x7b') :
    parse_template t = .ok ⟨t, [.literal t]⟩ := by
  unfold parse_template
  rw [scan_parts_no_brace t.data [] [] h]
  have hfin : finalize [] (t.data.reverse ++ []) = [.literal t] := by
    rw [List.append_nil]
    by_cases hd : t.data.reverse = []
    · have ht0 : t = "" := by
        cases t with
        | mk d =>
            have hd' : d = [] := by simpa using hd
            subst hd'
            rfl
      subst ht0
      rfl
    · simp only [finalize, flush_buf, if_neg hd]
      have hne : (Part.literal (String.mk t.data.reverse.reverse) :: ([] : List Part)) ≠ [] := by
        simp
      rw [if_neg hne]
      simp [List.reverse_reverse]
  rw [hfin]
  rfl

/-- Consuming a literal from a list that starts with it leaves the tail. -/
theorem consume_lit_append (l cs : List Char) : consume_lit l (l ++ cs) = some cs := by
  induction l with
  | nil => rfl
  | cons c l ih => simp [consume_lit, ih]

/-- A successful literal consumption decomposes the input. -/
theorem consume_lit_eq_some (l : List Char) :
    ∀ (cs rest : List Char), consume_lit l cs = some rest → cs = l ++ rest := by
  induction l with
  | nil =>
      intro cs rest h
      cases h
      rfl
  | cons c l ih =>
      intro cs rest h
      cases cs with
      | nil => cases h
      | cons c' cs =>
          by_cases hc : c = c'
          · subst hc
            simp only [consume_lit, if_pos rfl] at h
            rw [List.cons_append, ih cs rest h]
          · simp [consume_lit, hc] at h

/-- Matching a single-literal part list succeeds exactly on the literal
itself, with empty params. -/
theorem match_parts_single_lit (l : String) (u : List Char) :
    match_parts [.literal l] u = if u = l.data then some [] else none := by
  by_cases hu : u = l.data
  · subst hu
    rw [if_pos rfl]
    have : consume_lit l.data l.data = some [] := by
      have := consume_lit_append l.data []
      rwa [List.append_nil] at this
    simp [match_parts, this]
  · rw [if_neg hu]
    cases hc : consume_lit l.data u with
    | none => simp [match_parts, hc]
    | some rest =>
        have hdecomp := consume_lit_eq_some l.data u rest hc
        cases rest with
        | nil => exact absurd (by rw [hdecomp]; simp) hu
        | cons c cs => simp [match_parts, hc]

/-- C4: for every template containing no expressions (including the empty
string, which parses to a single empty literal and is valid), matching the
template string against itself succeeds with an empty params mapping, and
matching any other URI against it returns null. -/
theorem claim_c4_literal_roundtrip :
    ∀ t u : String, (∀ c ∈ t.data, c ≠ '\x7b') →
      try_match t t = some (some []) ∧ (u ≠ t → try_match t u = some none) := by
  intro t u h
  have hp := parse_template_no_brace t h
  constructor
  · simp [try_match, hp, Except.toOption, match_uri, match_parts_single_lit]
  · intro hu
    have hdata : u.data ≠ t.data := by
      intro hd
      apply hu
      cases u with
      | mk ud =>
          cases t with
          | mk td => cases hd; rfl
    simp [try_match, hp, Except.toOption, match_uri, match_parts_single_lit, hdata]

/-- Witness for C4 at concrete inputs: the literal template matches itself
with empty params and rejects a different URI. -/
theorem claim_c4_literal_roundtrip_witness :
    try_match "api/health" "api/health" = some (some []) ∧
    try_match "api/health" "api/nope" = some none :=
  ⟨(claim_c4_literal_roundtrip "api/health" "api/nope" (by decide)).1,
   (claim_c4_literal_roundtrip "api/health" "api/nope" (by decide)).2 (by decide)⟩

end UriTemplate

namespace UriTemplate

/-- Expansion distributes over part-list concatenation. -/
theorem expand_parts_append (b : Binding) (xs ys : List Part) :
    expand_parts b (xs ++ ys) = expand_parts b xs ++ expand_parts b ys := by
  induction xs with
  | nil => rfl
  | cons x xs ih =>
      cases x with
      | literal l => simp [expand_parts, ih]
      | expression op vars => simp [expand_parts, ih]

/-- Expansion of a literal section copies its text. -/
theorem expand_parts_lit_parts (b : Binding) (s : String) :
    expand_parts b (lit_parts s) = s.data := by
  unfold lit_parts
  by_cases hs : s = ""
  · rw [if_pos hs, hs]
    rfl
  · rw [if_neg hs]
    simp [expand_parts]

/-- A prefix-length modifier on a non-scalar value renders nothing. -/
theorem render_varspec_incompat (op : Option Op) (b : Binding) (vs : VarSpec)
    (hpl : vs.prefix_length.isSome = true)
    (hne : lookup_val vs.name b ≠ none)
    (hns : ∀ v : String, lookup_val vs.name b ≠ some (.s v)) :
    render_varspec op b vs = none := by
  cases hl : lookup_val vs.name b with
  | none => exact absurd hl hne
  | some v =>
      cases v with
      | s w => exact absurd hl (hns w)
      | l xs => simp [render_varspec, hl, hpl]
      | assoc kvs => simp [render_varspec, hl, hpl]

/-- C8: expansion never raises an error for a value shape incompatible with
a variable's modifier: rendering a prefix-modified variable bound to a
non-scalar value yields nothing (first conjunct, for every operator,
binding and modifier combination), and at the template level the rest of
the template still expands — the malformed expansion contributes an empty
span between the surrounding literals instead of aborting (second
conjunct); `expand` itself is a total function into strings, with no error
outcome in its type. -/
theorem claim_c8_expand_best_effort :
    (∀ (op : Option Op) (b : Binding) (vs : VarSpec),
        vs.prefix_length.isSome = true →
        lookup_val vs.name b ≠ none →
        (∀ v : String, lookup_val vs.name b ≠ some (.s v)) →
        render_varspec op b vs = none) ∧
    (∀ (l0 l1 : String) (op : Option Op) (nm : String) (n : Nat) (ex : Bool)
        (b : Binding) (xs : List String),
        lookup_val nm b = some (.l xs) →
        (expand (single_var_template l0 op ⟨nm, some n, ex⟩ l1) b).data =
          l0.data ++ l1.data) := by
  constructor
  · exact render_varspec_incompat
  · intro l0 l1 op nm n ex b xs hl
    have hrender : render_varspec op b ⟨nm, some n, ex⟩ = none := by
      simp [render_varspec, hl]
    show (String.mk (expand_parts b (lit_parts l0 ++ .expression op [⟨nm, some n, ex⟩] ::
      lit_parts l1))).data = l0.data ++ l1.data
    have : (Part.expression op [⟨nm, some n, ex⟩] :: lit_parts l1) =
        [Part.expression op [⟨nm, some n, ex⟩]] ++ lit_parts l1 := rfl
    rw [this, expand_parts_append, expand_parts_append, expand_parts_lit_parts,
      expand_parts_lit_parts]
    simp [expand_parts, render_expression, hrender]

/-- Witness for C8: a prefix-modified variable bound to a list renders
nothing, and the template around it still expands to its literals. -/
theorem claim_c8_expand_best_effort_witness :
    render_varspec none [("x", Value.l ["a", "b"])] ⟨"x", some 2, false⟩ = none ∧
    (expand (single_var_template "/pre/" none ⟨"x", some 2, false⟩ "/post") 
      [("x", Value.l ["a", "b"])]).data = ("/pre/" : String).data ++ ("/post" : String).data :=
  ⟨claim_c8_expand_best_effort.1 none [("x", Value.l ["a", "b"])] ⟨"x", some 2, false⟩
      (by decide) (by decide) (fun v h => by simp [lookup_val] at h),
   claim_c8_expand_best_effort.2 "/pre/" "/post" none "x" 2 false
      [("x", Value.l ["a", "b"])] ["a", "b"] (by decide)⟩

end UriTemplate

namespace UriTemplate

theorem hex_val_hex_digit : ∀ d : Nat, d < 16 → hex_val (hex_digit d) = some d := by decide

theorem hex_digit_unreserved : ∀ d : Nat, d < 16 → is_unreserved (hex_digit d) = true := by
  decide

theorem decode_chars_cons_ne (c : Char) (rest : List Char) (h : c ≠ '%') :
    decode_chars (c :: rest) = c :: decode_chars rest := by
  cases rest with
  | nil => simp [decode_chars, h]
  | cons a tail =>
      cases tail with
      | nil => simp [decode_chars, h]
      | cons b tail' => simp [decode_chars, h]

theorem decode_encode_char (allow : Bool) (c : Char) (rest : List Char) :
    decode_chars (encode_char allow c ++ rest) = c :: decode_chars rest := by
  unfold encode_char
  by_cases h1 : (is_unreserved c || (allow && is_reserved c)) = true
  · rw [if_pos h1]
    have hc : c ≠ '%' := by
      intro hc
      subst hc
      simp [is_unreserved, is_reserved] at h1
    simp only [List.cons_append, List.nil_append]
    exact decode_chars_cons_ne c rest hc
  · rw [if_neg h1]
    by_cases h2 : c.toNat < 256
    · rw [if_pos h2]
      have hdiv : c.toNat / 16 < 16 := by omega
      have hmod : c.toNat % 16 < 16 := by omega
      simp only [List.cons_append, List.nil_append, decode_chars,
        hex_val_hex_digit _ hdiv, hex_val_hex_digit _ hmod]
      rw [Nat.div_add_mod]
      rw [Char.ofNat_toNat]
      simp
    · rw [if_neg h2]
      have hc : c ≠ '%' := by
        intro hceq
        subst hceq
        exact h2 (by decide)
      simp only [List.cons_append, List.nil_append]
      exact decode_chars_cons_ne c rest hc

theorem decode_encode (allow : Bool) (cs : List Char) :
    decode_chars (encode_chars allow cs) = cs := by
  induction cs with
  | nil => rfl
  | cons c cs ih => rw [encode_chars, decode_encode_char, ih]

end UriTemplate

namespace UriTemplate

theorem encode_char_allowed (op : Option Op) (c : Char) :
    ∀ x ∈ encode_char (op_allow_reserved op) c, allowed_in_span op x = true := by
  intro x hx
  unfold encode_char at hx
  by_cases h1 : (is_unreserved c || (op_allow_reserved op && is_reserved c)) = true
  · rw [if_pos h1] at hx
    simp at hx
    subst hx
    rcases Bool.or_eq_true _ _ |>.mp h1 with h | h
    · simp [allowed_in_span, h]
    · rcases Bool.and_eq_true _ _ |>.mp h with ⟨ha, hr⟩
      simp [allowed_in_span, ha, hr]
  · rw [if_neg h1] at hx
    by_cases h2 : c.toNat < 256
    · rw [if_pos h2] at hx
      simp at hx
      rcases hx with hx | hx | hx
      · subst hx
        simp [allowed_in_span]
      · subst hx
        have := hex_digit_unreserved (c.toNat / 16) (by omega)
        simp [allowed_in_span, this]
      · subst hx
        have := hex_digit_unreserved (c.toNat % 16) (by omega)
        simp [allowed_in_span, this]
    · rw [if_neg h2] at hx
      simp at hx
      subst hx
      simp [allowed_in_span]
      exact Or.inl (Or.inl (Or.inl (Or.inr (by omega))))

theorem encode_chars_allowed (op : Option Op) (cs : List Char) :
    ∀ x ∈ encode_chars (op_allow_reserved op) cs, allowed_in_span op x = true := by
  induction cs with
  | nil => intro x hx; cases hx
  | cons c cs ih =>
      intro x hx
      rw [encode_chars] at hx
      rcases List.mem_append.mp hx with h | h
      · exact encode_char_allowed op c x h
      · exact ih x h

theorem named_pre_allowed (op : Option Op) (nm : String)
    (h : ∀ c ∈ nm.data, is_unreserved c = true) :
    ∀ c ∈ named_pre op nm, allowed_in_span op c = true := by
  intro c hc
  unfold named_pre at hc
  by_cases hn : op_named op = true
  · rw [if_pos hn] at hc
    rcases List.mem_append.mp hc with h1 | h1
    · simp [allowed_in_span, h c h1]
    · simp at h1
      subst h1
      simp [allowed_in_span, hn]
  · rw [if_neg hn] at hc
    cases hc

theorem consume_lit_none_of_short (l cs : List Char) (h : cs.length < l.length) :
    consume_lit l cs = none := by
  cases hc : consume_lit l cs with
  | none => rfl
  | some r =>
      have := consume_lit_eq_some l cs r hc
      subst this
      simp at h

theorem last_fit_at_append (lit B : List Char) (hlit : lit ≠ []) :
    ∀ bound, B.length ≤ bound → last_fit lit (B ++ lit) bound = some B.length := by
  intro bound
  induction bound with
  | zero =>
      intro hb
      have hB : B = [] := List.eq_nil_of_length_eq_zero (Nat.le_zero.mp hb)
      subst hB
      have hcons : consume_lit lit lit = some [] := by
        simpa using consume_lit_append lit []
      simp [last_fit, hcons]
  | succ i ih =>
      intro hb
      rcases Nat.lt_or_ge (i + 1) B.length with hlt | hge
      · omega
      · rcases Nat.eq_or_lt_of_le hge with heq | hgt
        · have h1 : i + 1 = B.length := by omega
          have hdrop : (B ++ lit).drop (i + 1) = lit := by
            rw [h1]
            exact List.drop_left B lit
          have hcons : consume_lit lit ((B ++ lit).drop (i + 1)) = some [] := by
            rw [hdrop]
            simpa using consume_lit_append lit []
          have hcons2 : consume_lit lit lit = some [] := by
            simpa using consume_lit_append lit []
          simp [last_fit, hcons, hcons2, h1]
        · have hshort : ((B ++ lit).drop (i + 1)).length < lit.length := by
            simp only [List.length_drop, List.length_append]
            have hl1 : 1 ≤ lit.length := by
              cases lit with
              | nil => exact absurd rfl hlit
              | cons x xs => simp
            omega
          have hnone : consume_lit lit ((B ++ lit).drop (i + 1)) = none :=
            consume_lit_none_of_short _ _ hshort
          rw [last_fit, hnone]
          simp only [Option.isSome_none, Bool.false_eq_true, if_false]
          exact ih (by omega)

end UriTemplate

namespace UriTemplate

theorem takeWhile_append_all {p : Char → Bool} (xs ys : List Char)
    (h : ∀ x ∈ xs, p x = true) :
    (xs ++ ys).takeWhile p = xs ++ ys.takeWhile p := by
  induction xs with
  | nil => rfl
  | cons x xs ih =>
      have hx : p x = true := h x (by simp)
      simp only [List.cons_append, List.takeWhile_cons, hx, if_true]
      rw [ih (fun y hy => h y (by simp [hy]))]

theorem bind_one_single (op : Option Op) (nm : String) (pl : Option Nat) (v : String)
    (hpl : ∀ n, pl = some n → v.data.length ≤ n) :
    bind_one op ⟨nm, pl, false⟩
      (named_pre op nm ++ encode_chars (op_allow_reserved op) v.data) =
      some (nm, PValue.s v) := by
  have htr : trunc pl (decode_chars (encode_chars (op_allow_reserved op) v.data)) = v.data := by
    rw [decode_encode]
    cases pl with
    | none => rfl
    | some n => exact List.take_of_length_le (hpl n rfl)
  unfold bind_one
  by_cases hn : op_named op = true
  · have hpre : named_pre op nm = nm.data ++ ['='] := by
      unfold named_pre
      rw [if_pos hn]
    have hstrip : strip_named nm.data
        ((nm.data ++ ['=']) ++ encode_chars (op_allow_reserved op) v.data) =
        some (encode_chars (op_allow_reserved op) v.data) := by
      unfold strip_named
      rw [consume_lit_append]
    rw [hpre]
    simp only [hn, if_true, Bool.false_eq_true, if_false, hstrip, htr]
  · have hpre : named_pre op nm = [] := by
      unfold named_pre
      rw [if_neg hn]
    rw [hpre]
    simp only [hn, Bool.false_eq_true, if_false, List.nil_append, htr]

theorem process_expr_single (op : Option Op) (nm : String) (pl : Option Nat) (v : String)
    (hpl : ∀ n, pl = some n → v.data.length ≤ n) :
    process_expr op [⟨nm, pl, false⟩]
      (named_pre op nm ++ encode_chars (op_allow_reserved op) v.data) =
      some [(nm, PValue.s v)] := by
  rw [process_expr, bind_one_single op nm pl v hpl]
  rfl

theorem match_expr_last (op : Option Op) (vars : List VarSpec) (B : List Char) (bs : Params)
    (hall : ∀ c ∈ B, allowed_in_span op c = true)
    (hproc : process_expr op vars B = some bs) :
    match_parts [.expression op vars] (opfx op ++ B) = some bs := by
  have htw : B.takeWhile (allowed_in_span op) = B :=
    List.takeWhile_eq_self_iff.mpr hall
  rcases op with _ | o
  · simp [match_parts, opfx, op_prefix_char, htw, hproc]
  · cases o <;> simp [match_parts, opfx, op_prefix_char, htw, hproc]

end UriTemplate

namespace UriTemplate

theorem match_expr_lit (op : Option Op) (vars : List VarSpec) (B : List Char) (l1 : String)
    (bs : Params) (hl1 : l1.data ≠ [])
    (hall : ∀ c ∈ B, allowed_in_span op c = true)
    (hproc : process_expr op vars B = some bs) :
    match_parts [.expression op vars, .literal l1] (opfx op ++ B ++ l1.data) = some bs := by
  have htw : (B ++ l1.data).takeWhile (allowed_in_span op) =
      B ++ l1.data.takeWhile (allowed_in_span op) :=
    takeWhile_append_all B l1.data hall
  have hfit : ∀ bound, B.length ≤ bound →
      last_fit l1.data (B ++ l1.data) bound = some B.length :=
    last_fit_at_append l1.data B hl1
  have hfit1 : last_fit l1.data (B ++ l1.data)
      (B.length + (l1.data.takeWhile (allowed_in_span op)).length) = some B.length :=
    hfit _ (Nat.le_add_right _ _)
  have hcl : consume_lit l1.data l1.data = some [] := by
    simpa using consume_lit_append l1.data []
  rcases op with _ | o
  · simp [match_parts, opfx, op_prefix_char, htw, hfit1, hproc, hcl]
  · cases o <;> simp [match_parts, opfx, op_prefix_char, htw, hfit1, hproc, hcl]

theorem match_parts_lit_front (s : String) (ps : List Part) (cs : List Char) :
    match_parts (lit_parts s ++ ps) (s.data ++ cs) = match_parts ps cs := by
  unfold lit_parts
  by_cases hs : s = ""
  · rw [if_pos hs]
    subst hs
    rfl
  · rw [if_neg hs]
    simp [match_parts, consume_lit_append]

theorem expand_single_var (l0 l1 : String) (op : Option Op) (nm : String) (pl : Option Nat)
    (v : String) (hv : v ≠ "") :
    (expand (single_var_template l0 op ⟨nm, pl, false⟩ l1) [(nm, Value.s v)]).data =
      l0.data ++ (opfx op ++ (named_pre op nm ++
        encode_chars (op_allow_reserved op) (trunc pl v.data)) ++ l1.data) := by
  show (String.mk (expand_parts _
      (lit_parts l0 ++ Part.expression op [⟨nm, pl, false⟩] :: lit_parts l1))).data = _
  rw [show (Part.expression op [⟨nm, pl, false⟩] :: lit_parts l1) =
      [Part.expression op [⟨nm, pl, false⟩]] ++ lit_parts l1 from rfl]
  rw [expand_parts_append, expand_parts_append, expand_parts_lit_parts,
    expand_parts_lit_parts]
  have hlook : lookup_val nm [(nm, Value.s v)] = some (Value.s v) := by
    simp [lookup_val]
  have hrender : render_varspec op [(nm, Value.s v)] ⟨nm, pl, false⟩ =
      some (render_scalar op ⟨nm, pl, false⟩ v.data) := by
    simp [render_varspec, hlook, hv]
  simp [expand_parts, render_expression, hrender, render_scalar, named_pre, opfx,
    join_sep, List.append_assoc]

end UriTemplate

namespace UriTemplate

/-- C5: expansion/match duality: for every template of the shape
literal-expression-literal with a single non-exploded variable (the single
expression not adjacent to another expression), every operator, and every
valid scalar binding (non-empty value, within the declared prefix length,
variable name made of unreserved characters), matching the expanded URI
against the same parsed template succeeds and recovers, after
percent-decoding, a value equal to the originally bound value. -/
theorem claim_c5_duality :
    ∀ (l0 l1 : String) (op : Option Op) (nm : String) (pl : Option Nat) (v : String),
      v ≠ "" →
      (∀ n, pl = some n → v.data.length ≤ n) →
      (∀ c ∈ nm.data, is_unreserved c = true) →
      match_uri (expand (single_var_template l0 op ⟨nm, pl, false⟩ l1) [(nm, Value.s v)])
        (single_var_template l0 op ⟨nm, pl, false⟩ l1) = some [(nm, PValue.s v)] := by
  intro l0 l1 op nm pl v hv hpl hnm
  have htr : trunc pl v.data = v.data := by
    cases pl with
    | none => rfl
    | some n => exact List.take_of_length_le (hpl n rfl)
  have hB : ∀ c ∈ named_pre op nm ++ encode_chars (op_allow_reserved op) v.data,
      allowed_in_span op c = true := by
    intro c hc
    rcases List.mem_append.mp hc with h | h
    · exact named_pre_allowed op nm hnm c h
    · exact encode_chars_allowed op v.data c h
  have hproc := process_expr_single op nm pl v hpl
  unfold match_uri
  rw [expand_single_var l0 l1 op nm pl v hv, htr]
  show match_parts (lit_parts l0 ++ Part.expression op [⟨nm, pl, false⟩] :: lit_parts l1)
      (l0.data ++ (opfx op ++ (named_pre op nm ++
        encode_chars (op_allow_reserved op) v.data) ++ l1.data)) = some [(nm, PValue.s v)]
  rw [match_parts_lit_front]
  by_cases hl1 : l1 = ""
  · subst hl1
    show match_parts [Part.expression op [⟨nm, pl, false⟩]]
        ((opfx op ++ (named_pre op nm ++ encode_chars (op_allow_reserved op) v.data)) ++ []) =
        some [(nm, PValue.s v)]
    rw [List.append_nil]
    exact match_expr_last op [⟨nm, pl, false⟩] _ _ hB hproc
  · have hl1' : l1.data ≠ [] := by
      intro hd
      apply hl1
      cases l1 with
      | mk d =>
          have hd' : d = [] := hd
          subst hd'
          rfl
    rw [show lit_parts l1 = [Part.literal l1] from by unfold lit_parts; rw [if_neg hl1]]
    exact match_expr_lit op [⟨nm, pl, false⟩] _ l1 _ hl1' hB hproc

end UriTemplate

namespace UriTemplate

/-- Witness for C5 at a concrete instance: a named query expression between
two literals, bound to a scalar containing a space; the expanded URI
percent-encodes the space and matching it recovers the original value. -/
theorem claim_c5_duality_witness :
    match_uri
      (expand (single_var_template "/q/" (some .question) ⟨"v", none, false⟩ "/t")
        [("v", Value.s "a b")])
      (single_var_template "/q/" (some .question) ⟨"v", none, false⟩ "/t") =
      some [("v", PValue.s "a b")] :=
  claim_c5_duality "/q/" "/t" (some .question) "v" none "a b" (by decide)
    (fun n h => nomatch h) (by decide)

end UriTemplate
